import Mathlib

/-!
Verification development for the github-nl-search-worker repository.

The Lean definitions below are shallow embeddings of the TypeScript source:
  * `dedupeBy`              — src/util.ts `dedupeBy`
  * `computeStatistics`     — src/judge.ts `computeStatistics`
  * `runSearchLifecycle`    — src/search.ts `runSearchLifecycle` (refinement loop)
  * `runGitHubSearch`       — src/github.ts `runGitHubSearch` (per-query dedupe)
  * `executeSingleSearch`   — src/search.ts `executeSingleSearch` (round trace)
  * `runJudge` / validation — src/judge.ts `runJudge`, `JudgeResponseSchema`
  * `nextResultGroup` etc.  — db.ts `Database.nextResultGroup` / `createSearchAttempt`
  * `insertSearchResults`   — db.ts `Database.insertSearchResults` (INSERT OR IGNORE)
  * `RateLimiter`           — src/scaffolder.ts durable-object token bucket

External effects (the GitHub API, the OpenAI judge, the D1 store, wall-clock
time) are supplied as oracles / explicit state, and the database calls made by
a round are recorded as an ordered event trace, so that ordering claims can be
stated about them.
-/

namespace GhNlSearch

/-! ### src/util.ts: dedupeBy -/

/-- Embedding of `dedupeBy` from src/util.ts: walk the list front to back,
keeping an item only when its key has not been seen before.  `seen` is the
accumulated key set (the TS code uses a `Set<string>`; a list of keys is an
equivalent model for membership tests). -/
def dedupeByAux {α : Type} (key : α → String) : List String → List α → List α
  | _, [] => []
  | seen, a :: rest =>
    if key a ∈ seen then dedupeByAux key seen rest
    else a :: dedupeByAux key (key a :: seen) rest

/-- `dedupeBy(items, getKey)` from src/util.ts. -/
def dedupeBy {α : Type} (key : α → String) (items : List α) : List α :=
  dedupeByAux key [] items

theorem dedupeByAux_sublist {α : Type} (key : α → String) :
    ∀ (l : List α) (seen : List String), (dedupeByAux key seen l).Sublist l := by
  intro l
  induction l with
  | nil => intro seen; simp [dedupeByAux]
  | cons a rest ih =>
    intro seen
    by_cases h : key a ∈ seen
    · simpa [dedupeByAux, h] using (ih seen).cons a
    · simpa [dedupeByAux, h] using (ih (key a :: seen)).cons₂ a

theorem dedupeByAux_key_notMem_seen {α : Type} (key : α → String) :
    ∀ (l : List α) (seen : List String) (y : α),
      y ∈ dedupeByAux key seen l → key y ∉ seen := by
  intro l
  induction l with
  | nil => intro seen y hy; simp [dedupeByAux] at hy
  | cons a rest ih =>
    intro seen y hy
    by_cases h : key a ∈ seen
    · simp only [dedupeByAux, if_pos h] at hy
      exact ih seen y hy
    · simp only [dedupeByAux, if_neg h, List.mem_cons] at hy
      rcases hy with rfl | hy
      · exact h
      · have := ih (key a :: seen) y hy
        intro hcon
        exact this (List.mem_cons_of_mem _ hcon)

theorem dedupeByAux_nodup_keys {α : Type} (key : α → String) :
    ∀ (l : List α) (seen : List String),
      ((dedupeByAux key seen l).map key).Nodup := by
  intro l
  induction l with
  | nil => intro seen; simp [dedupeByAux]
  | cons a rest ih =>
    intro seen
    by_cases h : key a ∈ seen
    · simpa [dedupeByAux, h] using ih seen
    · simp only [dedupeByAux, if_neg h, List.map_cons, List.nodup_cons]
      refine ⟨?_, ih (key a :: seen)⟩
      intro hmem
      rcases List.mem_map.mp hmem with ⟨y, hy, hkey⟩
      have := dedupeByAux_key_notMem_seen key rest (key a :: seen) y hy
      exact this (by simp [hkey])

theorem dedupeByAux_keys_complete {α : Type} (key : α → String) :
    ∀ (l : List α) (seen : List String) (x : α),
      x ∈ l → key x ∉ seen → key x ∈ (dedupeByAux key seen l).map key := by
  intro l
  induction l with
  | nil => intro seen x hx; simp at hx
  | cons a rest ih =>
    intro seen x hx hsx
    by_cases h : key a ∈ seen
    · simp only [dedupeByAux, if_pos h]
      rcases List.mem_cons.mp hx with rfl | hx
      · exact absurd h hsx
      · exact ih seen x hx hsx
    · simp only [dedupeByAux, if_neg h, List.map_cons, List.mem_cons]
      rcases List.mem_cons.mp hx with rfl | hx
      · exact Or.inl rfl
      · by_cases hk : key x = key a
        · exact Or.inl hk
        · refine Or.inr (ih (key a :: seen) x hx ?_)
          intro hmem
          rcases List.mem_cons.mp hmem with h1 | h1
          · exact hk h1
          · exact hsx h1

theorem dedupeByAux_first_occurrence {α : Type} (key : α → String) :
    ∀ (l : List α) (seen : List String) (y : α),
      y ∈ dedupeByAux key seen l →
      ∃ i, l.get? i = some y ∧
        ∀ j z, j < i → l.get? j = some z → key z ≠ key y := by
  intro l
  induction l with
  | nil => intro seen y hy; simp [dedupeByAux] at hy
  | cons a rest ih =>
    intro seen y hy
    by_cases h : key a ∈ seen
    · simp only [dedupeByAux, if_pos h] at hy
      obtain ⟨i, hi, hfirst⟩ := ih seen y hy
      have hynot := dedupeByAux_key_notMem_seen key rest seen y hy
      refine ⟨i + 1, by simpa using hi, ?_⟩
      intro j z hj hz
      cases j with
      | zero =>
        simp only [List.get?_cons_zero, Option.some.injEq] at hz
        subst hz
        intro hcon
        exact hynot (hcon ▸ h)
      | succ j =>
        simp only [List.get?_cons_succ] at hz
        exact hfirst j z (Nat.lt_of_succ_lt_succ hj) hz
    · simp only [dedupeByAux, if_neg h, List.mem_cons] at hy
      rcases hy with rfl | hy
      · exact ⟨0, rfl, by intro j z hj; omega⟩
      · obtain ⟨i, hi, hfirst⟩ := ih (key a :: seen) y hy
        have hynot := dedupeByAux_key_notMem_seen key rest (key a :: seen) y hy
        refine ⟨i + 1, by simpa using hi, ?_⟩
        intro j z hj hz
        cases j with
        | zero =>
          simp only [List.get?_cons_zero, Option.some.injEq] at hz
          subst hz
          intro hcon
          exact hynot (by simp [hcon])
        | succ j =>
          simp only [List.get?_cons_succ] at hz
          exact hfirst j z (Nat.lt_of_succ_lt_succ hj) hz

/-! ### src/judge.ts: per-repo judgements and computeStatistics -/

/-- One entry of the judge's `per_repo` list (src/judge.ts `JudgeResponseSchema`). -/
structure PerRepoJudgement where
  full_name : String
  score : ℚ
  note : String
deriving DecidableEq

/-- The judge response shape (src/judge.ts `JudgeResponseSchema`), before
validation: an overall narrative, follow-up query recommendations and the
per-repo scores. -/
structure JudgeResponse where
  overall_findings : String
  recommendations : List String
  per_repo : List PerRepoJudgement
deriving DecidableEq

/-- Embedding of `computeStatistics` from src/judge.ts.  The scores are sorted
ascending (JS `sort((a, b) => a - b)`); the median takes the middle element for
odd length and the average of the two middle elements for even length; the
top-5 mean averages the last five elements of the sorted list (`slice(-5)`),
or all of them when fewer than five, and is 0 for an empty list.  For the
empty list the JS median expression reads `scores[-1]`, producing NaN; the
model uses a default of 0 there and the median theorems are stated for
non-empty input only. -/
def computeStatistics (perRepo : List PerRepoJudgement) : ℚ × ℚ :=
  let scores := List.insertionSort (· ≤ ·) (perRepo.map (fun r => r.score))
  let mid := scores.length / 2
  let median :=
    if scores.length % 2 = 1 then scores.getD mid 0
    else (scores.getD (mid - 1) 0 + scores.getD mid 0) / 2
  let top5 := scores.drop (scores.length - 5)
  let top5Mean := if top5.length ≠ 0 then top5.sum / (top5.length : ℚ) else 0
  (median, top5Mean)

/-! ### src/search.ts: the refinement loop of runSearchLifecycle -/

/-- What one completed attempt of `executeSingleSearch` feeds back into the
loop of `runSearchLifecycle`: the two statistics and the judge's follow-up
recommendations. -/
structure AttemptResult where
  median : ℚ
  top5Mean : ℚ
  recommendations : List String
deriving DecidableEq

/-- One entry of the summary list returned by `runSearchLifecycle`: the input
query the attempt ran with, and the attempt's outcome. -/
structure RoundSummary where
  query : String
  res : AttemptResult
deriving DecidableEq

/-- The loop body of `runSearchLifecycle` (src/search.ts lines 235-268),
with `executeSingleSearch` abstracted into the oracle `run` (indexed by the
attempt counter and the current query).  The `for` loop runs while
`attemptIndex < max_attempts`; after each attempt it breaks when
`median >= min_score || top5Mean >= 0.75`, breaks when the recommendation
list is empty, and otherwise continues with the first recommendation as the
next query. -/
def runSearchLifecycleAux (run : Nat → String → AttemptResult) (minScore : ℚ) :
    Nat → Nat → String → List RoundSummary
  | 0, _, _ => []
  | fuel + 1, idx, q =>
    let r := run idx q
    if minScore ≤ r.median ∨ (3 : ℚ) / 4 ≤ r.top5Mean then [⟨q, r⟩]
    else
      match r.recommendations with
      | [] => [⟨q, r⟩]
      | next :: _ => ⟨q, r⟩ :: runSearchLifecycleAux run minScore fuel (idx + 1) next

/-- `runSearchLifecycle` with an explicit attempt bound and threshold
(the loop of src/search.ts, after the retry-policy defaults are resolved). -/
def runSearchLifecycle (run : Nat → String → AttemptResult) (maxAttempts : Nat)
    (minScore : ℚ) (q : String) : List RoundSummary :=
  runSearchLifecycleAux run minScore maxAttempts 0 q

/-- The condition under which the loop starts a further attempt after a
completed one (the negation of both break conditions). -/
def continuesSearch (minScore : ℚ) (r : AttemptResult) : Prop :=
  r.median < minScore ∧ r.top5Mean < (3 : ℚ) / 4 ∧ r.recommendations ≠ []

/-- `SearchRetryPolicy` from src/search.ts: both fields optional. -/
structure SearchRetryPolicy where
  max_attempts : Option Nat
  min_score : Option ℚ
deriving DecidableEq

/-- How `runSearchLifecycle` resolves the retry policy (src/search.ts lines
251 and 255-257): `retryPolicy = options.retryPolicy ?? {max_attempts: 3,
min_score: 0.65}`, then the loop bound is `retryPolicy.max_attempts ?? 1` and
the threshold is `retryPolicy.min_score ?? 0.65`. -/
def effectiveRetryPolicy (rp : Option SearchRetryPolicy) : Nat × ℚ :=
  let p := rp.getD ⟨some 3, some (13 / 20)⟩
  (p.max_attempts.getD 1, p.min_score.getD (13 / 20))

/-- `runSearchLifecycle` as called with caller options: an optional retry
policy resolved exactly as in src/search.ts. -/
def runSearchLifecycleWithPolicy (run : Nat → String → AttemptResult)
    (rp : Option SearchRetryPolicy) (q : String) : List RoundSummary :=
  runSearchLifecycle run (effectiveRetryPolicy rp).1 (effectiveRetryPolicy rp).2 q

theorem runSearchLifecycleAux_ne_nil (run : Nat → String → AttemptResult)
    (ms : ℚ) (fuel idx : Nat) (q : String) (h : fuel ≠ 0) :
    runSearchLifecycleAux run ms fuel idx q ≠ [] := by
  cases fuel with
  | zero => exact absurd rfl h
  | succ fuel =>
    simp only [runSearchLifecycleAux]
    split
    · simp
    · split <;> simp

theorem runSearchLifecycleAux_length_le (run : Nat → String → AttemptResult)
    (ms : ℚ) : ∀ (fuel idx : Nat) (q : String),
    (runSearchLifecycleAux run ms fuel idx q).length ≤ fuel := by
  intro fuel
  induction fuel with
  | zero => intro idx q; simp [runSearchLifecycleAux]
  | succ fuel ih =>
    intro idx q
    simp only [runSearchLifecycleAux]
    split
    · simp
    · split
      · simp
      · simpa using ih (idx + 1) _

theorem runSearchLifecycleAux_get_zero (run : Nat → String → AttemptResult)
    (ms : ℚ) (fuel idx : Nat) (q : String) (h : fuel ≠ 0) :
    (runSearchLifecycleAux run ms fuel idx q).get? 0 = some ⟨q, run idx q⟩ := by
  cases fuel with
  | zero => exact absurd rfl h
  | succ fuel =>
    simp only [runSearchLifecycleAux]
    split
    · rfl
    · split
      · next hrec _ => rfl
      · rfl

theorem runSearchLifecycleAux_spec (run : Nat → String → AttemptResult) (ms : ℚ) :
    ∀ (fuel idx : Nat) (q : String) (i : Nat) (y : RoundSummary),
      (runSearchLifecycleAux run ms fuel idx q).get? i = some y →
      (((runSearchLifecycleAux run ms fuel idx q).get? (i + 1)).isSome ↔
        (continuesSearch ms y.res ∧ i + 1 < fuel)) ∧
      ∀ x, (runSearchLifecycleAux run ms fuel idx q).get? (i + 1) = some x →
        y.res.recommendations.head? = some x.query := by
  intro fuel
  induction fuel with
  | zero =>
    intro idx q i y hy
    simp [runSearchLifecycleAux] at hy
  | succ fuel ih =>
    intro idx q i y hy
    by_cases hstop : ms ≤ (run idx q).median ∨ (3 : ℚ) / 4 ≤ (run idx q).top5Mean
    · -- terminal: converged
      simp only [runSearchLifecycleAux, if_pos hstop] at hy ⊢
      have hi : i = 0 ∧ y = ⟨q, run idx q⟩ := by
        cases i with
        | zero => simpa using hy.symm
        | succ i => simp at hy
      obtain ⟨rfl, rfl⟩ := hi
      constructor
      · simp only [List.get?_cons_succ, List.get?_nil, Option.isSome_none,
          Bool.false_eq_true, false_iff]
        intro hcon
        rcases hcon.1 with ⟨hm, ht, _⟩
        rcases hstop with h | h
        · exact absurd h (not_le.mpr hm)
        · exact absurd h (not_le.mpr ht)
      · intro x hx; simp at hx
    · cases hrec : (run idx q).recommendations with
      | nil =>
        -- terminal: nothing to refine with
        simp only [runSearchLifecycleAux, if_neg hstop, hrec] at hy ⊢
        have hi : i = 0 ∧ y = ⟨q, run idx q⟩ := by
          cases i with
          | zero => simpa using hy.symm
          | succ i => simp at hy
        obtain ⟨rfl, rfl⟩ := hi
        constructor
        · simp only [List.get?_cons_succ, List.get?_nil, Option.isSome_none,
            Bool.false_eq_true, false_iff]
          intro hcon
          exact hcon.1.2.2 hrec
        · intro x hx; simp at hx
      | cons next rest =>
        -- the loop refines the query and continues
        simp only [runSearchLifecycleAux, if_neg hstop, hrec] at hy ⊢
        cases i with
        | zero =>
          simp only [List.get?_cons_zero, Option.some.injEq] at hy
          subst hy
          push_neg at hstop
          constructor
          · simp only [List.get?_cons_succ]
            constructor
            · intro hsome
              refine ⟨⟨hstop.1, hstop.2, by simp [hrec]⟩, ?_⟩
              have hne : runSearchLifecycleAux run ms fuel (idx + 1) next ≠ [] := by
                intro hnil
                rw [hnil] at hsome
                simp at hsome
              have : fuel ≠ 0 := by
                intro h0
                exact hne (by simp [h0, runSearchLifecycleAux])
              omega
            · intro ⟨_, hlt⟩
              have hfz : fuel ≠ 0 := by omega
              rw [runSearchLifecycleAux_get_zero run ms fuel (idx + 1) next hfz]
              simp
          · intro x hx
            simp only [List.get?_cons_succ] at hx
            have hfz : fuel ≠ 0 := by
              intro h0
              rw [h0] at hx
              simp [runSearchLifecycleAux] at hx
            rw [runSearchLifecycleAux_get_zero run ms fuel (idx + 1) next hfz] at hx
            simp only [Option.some.injEq] at hx
            subst hx
            simp [hrec]
        | succ i =>
          simp only [List.get?_cons_succ] at hy ⊢
          have := ih (idx + 1) next i y hy
          refine ⟨?_, this.2⟩
          rw [this.1]
          constructor
          · rintro ⟨h1, h2⟩
            exact ⟨h1, by omega⟩
          · rintro ⟨h1, h2⟩
            exact ⟨h1, by omega⟩

/-- C1. For every invocation of the refinement loop with explicit retry
policy `{max_attempts, min_score}` (max_attempts ≥ 1): the summary list has
one entry per completed attempt with length between 1 and max_attempts, the
first attempt runs the caller's query, a further attempt is started if and
only if the completed attempt had `median < min_score`, `top5Mean < 0.75`
and a non-empty recommendation list and fewer than max_attempts attempts had
completed, and each further attempt's input query is the previous attempt's
first recommendation. -/
theorem runSearchLifecycle_loop_spec (run : Nat → String → AttemptResult)
    (m : Nat) (ms : ℚ) (q : String) (hm : 1 ≤ m) :
    (1 ≤ (runSearchLifecycle run m ms q).length ∧
      (runSearchLifecycle run m ms q).length ≤ m) ∧
    (runSearchLifecycle run m ms q).get? 0 = some ⟨q, run 0 q⟩ ∧
    (∀ i y, (runSearchLifecycle run m ms q).get? i = some y →
      (((runSearchLifecycle run m ms q).get? (i + 1)).isSome ↔
        (continuesSearch ms y.res ∧ i + 1 < m))) ∧
    (∀ i y x, (runSearchLifecycle run m ms q).get? i = some y →
      (runSearchLifecycle run m ms q).get? (i + 1) = some x →
      y.res.recommendations.head? = some x.query) := by
  have hmz : m ≠ 0 := by omega
  refine ⟨⟨?_, runSearchLifecycleAux_length_le run ms m 0 q⟩, ?_, ?_, ?_⟩
  · have h1 := runSearchLifecycleAux_ne_nil run ms m 0 q hmz
    have h2 : (runSearchLifecycleAux run ms m 0 q).length ≠ 0 := by
      simpa [List.length_eq_zero] using h1
    show 1 ≤ (runSearchLifecycleAux run ms m 0 q).length
    omega
  · exact runSearchLifecycleAux_get_zero run ms m 0 q hmz
  · intro i y hy
    exact (runSearchLifecycleAux_spec run ms m 0 q i y hy).1
  · intro i y x hy hx
    exact (runSearchLifecycleAux_spec run ms m 0 q i y hy).2 x hx

/-- A constant attempt oracle used to witness the lifecycle theorems on the
spec's convergence scenario: round 1 scores median 0.4 with one
recommendation, every later round scores median 0.7. -/
def scenarioRun : Nat → String → AttemptResult :=
  fun i _ => if i = 0 then ⟨2 / 5, 0, ["refined query"]⟩ else ⟨7 / 10, 0, ["again"]⟩

/-- Witness for C1: the spec's convergence scenario (`max_attempts = 3`,
`min_score = 0.65`); the hypothesis `1 ≤ 3` is discharged concretely, and the
loop indeed stops after exactly 2 rounds. -/
theorem runSearchLifecycle_loop_spec_witness :
    ((1 : Nat) ≤ 3 ∧
      (1 ≤ (runSearchLifecycle scenarioRun 3 (13 / 20) "q").length ∧
        (runSearchLifecycle scenarioRun 3 (13 / 20) "q").length ≤ 3)) ∧
    (runSearchLifecycle scenarioRun 3 (13 / 20) "q").length = 2 := by
  refine ⟨⟨by norm_num, (runSearchLifecycle_loop_spec scenarioRun 3 (13 / 20) "q" (by norm_num)).1⟩, ?_⟩
  have h1 : ¬((13 : ℚ) / 20 ≤ 2 / 5 ∨ (3 : ℚ) / 4 ≤ 0) := by norm_num
  have h2 : ((13 : ℚ) / 20 ≤ 7 / 10 ∨ (3 : ℚ) / 4 ≤ 0) := by norm_num
  simp [runSearchLifecycle, runSearchLifecycleAux, scenarioRun, h1, h2]

/-- C3. `computeStatistics` in terms of any ascending-sorted permutation `sl`
of the score list: the median is the middle element for odd count and the
average of the two middle elements for even count, and `top5Mean` is the sum
of the last five sorted elements (all of them when fewer than five) divided by
`min 5 count`. -/
theorem computeStatistics_spec (l : List PerRepoJudgement) (sl : List ℚ)
    (hperm : sl.Perm (l.map (fun r => r.score)))
    (hsort : sl.Sorted (· ≤ ·)) (hne : l ≠ []) :
    (computeStatistics l).1 =
      (if sl.length % 2 = 1 then sl.getD (sl.length / 2) 0
       else (sl.getD (sl.length / 2 - 1) 0 + sl.getD (sl.length / 2) 0) / 2) ∧
    (computeStatistics l).2 =
      (sl.drop (sl.length - 5)).sum / ((min 5 sl.length : Nat) : ℚ) := by
  have hsl : sl = List.insertionSort (· ≤ ·) (l.map (fun r => r.score)) := by
    refine List.eq_of_perm_of_sorted ?_ hsort
      (List.sorted_insertionSort (· ≤ ·) (l.map (fun r => r.score)))
    exact hperm.trans (List.perm_insertionSort (· ≤ ·) (l.map (fun r => r.score))).symm
  subst hsl
  set scores := List.insertionSort (· ≤ ·) (l.map (fun r => r.score)) with hscores
  have hlen : scores.length = l.length := by
    rw [hscores, (List.perm_insertionSort (· ≤ ·) _).length_eq, List.length_map]
  have hlenpos : 0 < scores.length := by
    rw [hlen]
    exact List.length_pos.mpr hne
  have hdroplen : (scores.drop (scores.length - 5)).length = min 5 scores.length := by
    rw [List.length_drop]
    omega
  constructor
  · rfl
  · show (if (scores.drop (scores.length - 5)).length ≠ 0 then
        (scores.drop (scores.length - 5)).sum / (((scores.drop (scores.length - 5)).length : Nat) : ℚ)
      else 0) = (scores.drop (scores.length - 5)).sum / ((min 5 scores.length : Nat) : ℚ)
    have hne5 : (scores.drop (scores.length - 5)).length ≠ 0 := by omega
    rw [if_pos hne5, hdroplen]

/-- The spec's median example list (scores 0.2, 0.5, 0.9). -/
def c3List : List PerRepoJudgement :=
  [⟨"a/one", 1 / 5, "n1"⟩, ⟨"b/two", 1 / 2, "n2"⟩, ⟨"c/three", 9 / 10, "n3"⟩]

/-- The ascending-sorted scores of `c3List`. -/
def c3Sorted : List ℚ := [1 / 5, 1 / 2, 9 / 10]

/-- Witness for C3: the theorem applied to the spec's 3-item example, with the
permutation, sortedness and non-emptiness hypotheses discharged concretely. -/
theorem computeStatistics_spec_witness :
    (c3Sorted.Perm (c3List.map (fun r => r.score)) ∧
      c3Sorted.Sorted (· ≤ ·) ∧ c3List ≠ []) ∧
    ((computeStatistics c3List).1 =
      (if c3Sorted.length % 2 = 1 then c3Sorted.getD (c3Sorted.length / 2) 0
       else (c3Sorted.getD (c3Sorted.length / 2 - 1) 0 + c3Sorted.getD (c3Sorted.length / 2) 0) / 2) ∧
     (computeStatistics c3List).2 =
      (c3Sorted.drop (c3Sorted.length - 5)).sum / ((min 5 c3Sorted.length : Nat) : ℚ)) := by
  have h1 : c3Sorted.Perm (c3List.map (fun r => r.score)) := by
    rw [show c3List.map (fun r => r.score) = c3Sorted from rfl]
  have h2 : c3Sorted.Sorted (· ≤ ·) := by
    norm_num [c3Sorted, List.sorted_cons]
  have h3 : c3List ≠ [] := by simp [c3List]
  exact ⟨⟨h1, h2, h3⟩, computeStatistics_spec c3List c3Sorted h1 h2 h3⟩

/-- An attempt oracle that always scores low and always recommends a follow-up
query, so the loop only ever stops by exhausting the attempt bound. -/
def alwaysLowRun : Nat → String → AttemptResult :=
  fun _ _ => ⟨0, 0, ["next"]⟩

/-- Counterexample for C4 as stated: a supplied retry policy that sets only
`min_score` does NOT behave as if `max_attempts = 3` — the loop runs a single
attempt (the code falls back to `?? 1`, not 3), while the explicit
`max_attempts = 3` run performs three. -/
theorem retryPolicy_partial_default_cex :
    (runSearchLifecycleWithPolicy alwaysLowRun (some ⟨none, some (1 / 2)⟩) "q").length = 1 ∧
    (runSearchLifecycle alwaysLowRun 3 (1 / 2) "q").length = 3 ∧
    runSearchLifecycleWithPolicy alwaysLowRun (some ⟨none, some (1 / 2)⟩) "q" ≠
      runSearchLifecycle alwaysLowRun 3 (1 / 2) "q" := by
  have h1 : (runSearchLifecycleWithPolicy alwaysLowRun (some ⟨none, some (1 / 2)⟩) "q").length = 1 := by
    norm_num [runSearchLifecycleWithPolicy, effectiveRetryPolicy, runSearchLifecycle,
      runSearchLifecycleAux, alwaysLowRun]
  have h2 : (runSearchLifecycle alwaysLowRun 3 (1 / 2) "q").length = 3 := by
    norm_num [runSearchLifecycle, runSearchLifecycleAux, alwaysLowRun]
  refine ⟨h1, h2, ?_⟩
  intro heq
  rw [heq] at h1
  rw [h1] at h2
  exact absurd h2 (by norm_num)

/-- C4 amended. When the caller omits the whole retry policy the controller
uses `max_attempts = 3` and `min_score = 0.65`; when a retry policy object is
supplied, a missing `min_score` defaults to 0.65 but a missing `max_attempts`
defaults to 1 (a single attempt), not 3. -/
theorem retryPolicy_defaults_amended (run : Nat → String → AttemptResult) (q : String) :
    runSearchLifecycleWithPolicy run none q = runSearchLifecycle run 3 (13 / 20) q ∧
    (∀ ms, runSearchLifecycleWithPolicy run (some ⟨none, some ms⟩) q =
      runSearchLifecycle run 1 ms q) ∧
    (∀ ma, runSearchLifecycleWithPolicy run (some ⟨some ma, none⟩) q =
      runSearchLifecycle run ma (13 / 20) q) ∧
    (∀ ma ms, runSearchLifecycleWithPolicy run (some ⟨some ma, some ms⟩) q =
      runSearchLifecycle run ma ms q) :=
  ⟨rfl, fun _ => rfl, fun _ => rfl, fun _ _ => rfl⟩

/-! ### src/github.ts: runGitHubSearch and the round's candidate list -/

/-- The fields of a normalized repository item that the claims inspect:
the provider's opaque node id (the stable dedupe key), the display name
(used to key the README fetch and the judge digest), the canonical URL and
the description. -/
structure GitHubRepository where
  node_id : String
  full_name : String
  html_url : String
  description : Option String
deriving DecidableEq

/-- One per-query output of `runGitHubSearch`: the concrete query string and
its (per-query deduplicated) item list. -/
structure GitHubSearchResponse where
  query : String
  items : List GitHubRepository
deriving DecidableEq

/-- Embedding of the search loop of `runGitHubSearch` (src/github.ts lines
128-155): the provider's raw per-query item lists are supplied as the oracle
`raw` (one entry per expanded query, in fixed template order), and each
query's items are deduplicated by `node_id` — separately per query. -/
def runGitHubSearch (raw : List (String × List GitHubRepository)) :
    List GitHubSearchResponse :=
  raw.map (fun qr => ⟨qr.1, dedupeBy (fun r => r.node_id) qr.2⟩)

/-- The round's candidate list as assembled by `executeSingleSearch`
(src/search.ts line 109): `searchResponses.flatMap((response) => response.items)`
— the per-query outputs concatenated, with no further dedupe. -/
def assembleCandidates (responses : List GitHubSearchResponse) :
    List GitHubRepository :=
  (responses.map (fun s => s.items)).flatten

/-- A repository returned by two different query templates of the same round. -/
def cexRepo : GitHubRepository :=
  ⟨"node-x", "acme/worker", "https://github.com/acme/worker", none⟩

/-- Provider output in which both expanded queries return the same item. -/
def cexRawQueries : List (String × List GitHubRepository) :=
  [("template-query-1", [cexRepo]), ("template-query-2", [cexRepo])]

/-- Counterexample for C2 as stated: when two expanded queries of one round
both return the same repository, the candidate list assembled from their
concatenated outputs contains that node id twice — dedupe only ran within
each query's own output. -/
theorem assembleCandidates_dedupe_cex :
    ¬ ((assembleCandidates (runGitHubSearch cexRawQueries)).map
        (fun r => r.node_id)).Nodup ∧
    (assembleCandidates (runGitHubSearch cexRawQueries)).map (fun r => r.node_id) =
      ["node-x", "node-x"] := by
  constructor
  · decide
  · decide

/-- C2 amended. Dedupe by stable key happens separately within each expanded
query's output list: each per-query item list of `runGitHubSearch` never
contains two items with the same node id, is a sublist of the provider's raw
list for that query (order preserved), covers every raw item's key, and keeps
exactly the first raw occurrence of each key.  The concatenation across
queries (the round's candidate list) is not deduplicated again. -/
theorem runGitHubSearch_per_query_dedupe :
    (∀ (raw : List (String × List GitHubRepository)) (resp : GitHubSearchResponse),
      resp ∈ runGitHubSearch raw →
      ((resp.items.map (fun r => r.node_id)).Nodup ∧
        ∃ qr ∈ raw, resp.query = qr.1 ∧ resp.items = dedupeBy (fun r => r.node_id) qr.2)) ∧
    (∀ (l : List GitHubRepository),
      (dedupeBy (fun r => r.node_id) l).Sublist l ∧
      (∀ x ∈ l, x.node_id ∈ (dedupeBy (fun r => r.node_id) l).map (fun r => r.node_id)) ∧
      (∀ y ∈ dedupeBy (fun r => r.node_id) l, ∃ i, l.get? i = some y ∧
        ∀ j z, j < i → l.get? j = some z → z.node_id ≠ y.node_id)) := by
  constructor
  · intro raw resp hresp
    rcases List.mem_map.mp hresp with ⟨qr, hqr, rfl⟩
    exact ⟨dedupeByAux_nodup_keys _ qr.2 [], ⟨qr, hqr, rfl, rfl⟩⟩
  · intro l
    refine ⟨dedupeByAux_sublist _ l [], ?_, ?_⟩
    · intro x hx
      exact dedupeByAux_keys_complete _ l [] x hx (by simp)
    · intro y hy
      exact dedupeByAux_first_occurrence _ l [] y hy

/-- Witness for C2's amended theorem: applied to the two-query provider
output above; the membership hypotheses are discharged concretely. -/
theorem runGitHubSearch_per_query_dedupe_witness :
    (⟨"template-query-1", [cexRepo]⟩ ∈ runGitHubSearch cexRawQueries ∧
      cexRepo ∈ [cexRepo, cexRepo]) ∧
    (([cexRepo].map (fun r => r.node_id)).Nodup ∧
      cexRepo.node_id ∈ (dedupeBy (fun r => r.node_id) [cexRepo, cexRepo]).map
        (fun r => r.node_id)) := by
  have hmem : (⟨"template-query-1", [cexRepo]⟩ : GitHubSearchResponse) ∈
      runGitHubSearch cexRawQueries := by decide
  have hmem2 : cexRepo ∈ [cexRepo, cexRepo] := by decide
  refine ⟨⟨hmem, hmem2⟩, ?_, ?_⟩
  · have h := (runGitHubSearch_per_query_dedupe.1 cexRawQueries
      ⟨"template-query-1", [cexRepo]⟩ hmem).1
    exact h
  · exact (runGitHubSearch_per_query_dedupe.2 [cexRepo, cexRepo]).2.1 cexRepo hmem2

/-! ### db.ts: result_group allocation (Database.nextResultGroup /
Database.createSearchAttempt) -/

/-- The columns of a `search_attempts` row that the result_group claims use. -/
structure SearchAttemptRow where
  session_id : String
  result_group : Nat
deriving DecidableEq

/-- The result_group values of one session's attempts, in creation (insert)
order — `SELECT result_group FROM search_attempts WHERE session_id = ?`. -/
def attemptGroups (table : List SearchAttemptRow) (s : String) : List Nat :=
  (table.filter (fun a => a.session_id = s)).map (fun a => a.result_group)

/-- `Database.nextResultGroup`:
`SELECT COALESCE(MAX(result_group), 0) + 1 FROM search_attempts WHERE session_id = ?`. -/
def nextResultGroup (table : List SearchAttemptRow) (s : String) : Nat :=
  (attemptGroups table s).foldr max 0 + 1

/-- One serialized attempt creation for a session, as `executeSingleSearch`
performs it: read `nextResultGroup`, then insert the attempt row with that
group (`Database.createSearchAttempt`). -/
def createAttemptFor (table : List SearchAttemptRow) (s : String) : List SearchAttemptRow :=
  table ++ [⟨s, nextResultGroup table s⟩]

/-- A serialized history of attempt creations (each entry names the session
the attempt is created for), starting from an empty store. -/
def runAttemptCreations (ops : List String) : List SearchAttemptRow :=
  ops.foldl createAttemptFor []

theorem foldr_max_range' : ∀ (n a : Nat),
    (List.range' a n).foldr max 0 = if n = 0 then 0 else a + n - 1 := by
  intro n
  induction n with
  | zero => intro a; simp
  | succ n ih =>
    intro a
    rw [List.range'_succ, List.foldr_cons, ih (a + 1)]
    by_cases hn : n = 0
    · simp [hn]
    · rw [if_neg hn, if_neg (by omega : ¬ n + 1 = 0)]
      omega

theorem attemptGroups_append_single (table : List SearchAttemptRow)
    (s t : String) (g : Nat) :
    attemptGroups (table ++ [⟨t, g⟩]) s =
      attemptGroups table s ++ (if t = s then [g] else []) := by
  by_cases h : t = s
  · simp [attemptGroups, List.filter_append, h]
  · simp [attemptGroups, List.filter_append, h]

theorem attemptGroups_foldl_invariant (ops : List String) :
    ∀ (table : List SearchAttemptRow),
      (∀ s, attemptGroups table s = List.range' 1 (attemptGroups table s).length) →
      ∀ s, attemptGroups (ops.foldl createAttemptFor table) s =
        List.range' 1 (attemptGroups (ops.foldl createAttemptFor table) s).length := by
  induction ops with
  | nil => intro table h s; simpa using h s
  | cons o ops ih =>
    intro table h s
    rw [List.foldl_cons]
    refine ih (createAttemptFor table o) ?_ s
    intro s'
    rw [show createAttemptFor table o = table ++ [⟨o, nextResultGroup table o⟩] from rfl,
      attemptGroups_append_single]
    by_cases ho : o = s'
    · subst ho
      rw [if_pos rfl]
      have hg := h o
      have hmax : (attemptGroups table o).foldr max 0 = (attemptGroups table o).length := by
        conv_lhs => rw [hg]
        rw [foldr_max_range']
        by_cases hz : (attemptGroups table o).length = 0
        · simp [hz]
        · rw [if_neg hz]
          omega
      have hnext : nextResultGroup table o = (attemptGroups table o).length + 1 := by
        rw [show nextResultGroup table o =
          (attemptGroups table o).foldr max 0 + 1 from rfl, hmax]
      have key : attemptGroups table o ++ [nextResultGroup table o] =
          List.range' 1 ((attemptGroups table o).length + 1) := by
        rw [List.range'_concat, hnext]
        conv_lhs => rw [hg]
        congr 1
        simp only [List.cons.injEq, and_true, List.length_range']
        omega
      rw [key]
      congr 1
      simp
    · rw [if_neg ho, List.append_nil]
      exact h s'

/-- C8. Under serialized attempt creation (the model applies the read-then-
insert pair atomically per attempt), the result_group values of any session's
attempts always form, in creation order, the gap-free strictly increasing
sequence 1, 2, …, n; and the next attempt created for the session receives
n + 1 (that is, one plus the maximum existing group, and 1 when the session
has no attempts). -/
theorem resultGroup_gapfree_spec (ops : List String) (s : String) :
    attemptGroups (runAttemptCreations ops) s =
      List.range' 1 (attemptGroups (runAttemptCreations ops) s).length ∧
    nextResultGroup (runAttemptCreations ops) s =
      (attemptGroups (runAttemptCreations ops) s).length + 1 := by
  have h : attemptGroups (runAttemptCreations ops) s =
      List.range' 1 (attemptGroups (runAttemptCreations ops) s).length :=
    attemptGroups_foldl_invariant ops [] (by intro s'; simp [attemptGroups]) s
  refine ⟨h, ?_⟩
  rw [show nextResultGroup (runAttemptCreations ops) s =
    (attemptGroups (runAttemptCreations ops) s).foldr max 0 + 1 from rfl]
  conv_lhs => rw [h]
  rw [foldr_max_range']
  by_cases hz : (attemptGroups (runAttemptCreations ops) s).length = 0
  · simp [hz]
  · rw [if_neg hz]
    omega

/-! ### db.ts: Database.insertSearchResults (INSERT OR IGNORE on the
uniqueness triple) -/

/-- A `search_results` row (db.ts `SearchResultRow`, without the
store-generated id and timestamp). -/
structure SearchResultRow where
  session_id : String
  search_attempt_id : Nat
  repo_id : String
  repo_url : String
  readme_content : Option String
  judge_finding : Option String
  judge_relevance_score : Option ℚ
  batch_id : Option Nat
deriving DecidableEq

/-- The uniqueness triple of schema.sql:
`UNIQUE (session_id, search_attempt_id, repo_id)`. -/
def resultTriple (r : SearchResultRow) : String × Nat × String :=
  (r.session_id, r.search_attempt_id, r.repo_id)

/-- One `INSERT OR IGNORE INTO search_results` statement: the row is appended
unless a row with the same uniqueness triple already exists, in which case the
table is returned unchanged (and no error is raised — the function is total). -/
def insertResultRow (table : List SearchResultRow) (row : SearchResultRow) :
    List SearchResultRow :=
  if table.any (fun x => resultTriple x = resultTriple row) then table
  else table ++ [row]

/-- `Database.insertSearchResults`: the rows are inserted one at a time, each
with INSERT OR IGNORE. -/
def insertSearchResults (table : List SearchResultRow)
    (rows : List SearchResultRow) : List SearchResultRow :=
  rows.foldl insertResultRow table

theorem mem_insertResultRow_of_mem (table : List SearchResultRow)
    (row x : SearchResultRow) (hx : x ∈ table) : x ∈ insertResultRow table row := by
  unfold insertResultRow
  split
  · exact hx
  · exact List.mem_append_left _ hx

theorem triple_mem_insertResultRow (table : List SearchResultRow)
    (row : SearchResultRow) :
    ∃ x ∈ insertResultRow table row, resultTriple x = resultTriple row := by
  unfold insertResultRow
  split
  · next h =>
    rcases List.any_eq_true.mp h with ⟨x, hx, hkey⟩
    exact ⟨x, hx, of_decide_eq_true hkey⟩
  · exact ⟨row, List.mem_append_right _ (List.mem_singleton_self row), rfl⟩

theorem mem_insertSearchResults_of_mem (rows : List SearchResultRow) :
    ∀ (table : List SearchResultRow) (x : SearchResultRow),
      x ∈ table → x ∈ insertSearchResults table rows := by
  induction rows with
  | nil => intro table x hx; exact hx
  | cons r rows ih =>
    intro table x hx
    exact ih (insertResultRow table r) x (mem_insertResultRow_of_mem table r x hx)

theorem triples_present_after_insert (rows : List SearchResultRow) :
    ∀ (table : List SearchResultRow) (r : SearchResultRow), r ∈ rows →
      ∃ x ∈ insertSearchResults table rows, resultTriple x = resultTriple r := by
  induction rows with
  | nil => intro table r hr; simp at hr
  | cons r0 rows ih =>
    intro table r hr
    rcases List.mem_cons.mp hr with rfl | hr
    · obtain ⟨x, hx, hkey⟩ := triple_mem_insertResultRow table r
      exact ⟨x, mem_insertSearchResults_of_mem rows (insertResultRow table r) x hx, hkey⟩
    · exact ih (insertResultRow table r0) r hr

theorem insertSearchResults_of_all_present (rows : List SearchResultRow) :
    ∀ (table : List SearchResultRow),
      (∀ r ∈ rows, ∃ x ∈ table, resultTriple x = resultTriple r) →
      insertSearchResults table rows = table := by
  induction rows with
  | nil => intro table _; rfl
  | cons r rows ih =>
    intro table h
    have hr : insertResultRow table r = table := by
      unfold insertResultRow
      rw [if_pos]
      obtain ⟨x, hx, hkey⟩ := h r (List.mem_cons_self r rows)
      exact List.any_eq_true.mpr ⟨x, hx, decide_eq_true hkey⟩
    show insertSearchResults (insertResultRow table r) rows = table
    rw [hr]
    exact ih table (fun r' hr' => h r' (List.mem_cons_of_mem r hr'))

/-- C9. Inserting a Result row whose (session, attempt, repo) triple already
exists leaves the table completely unchanged (row count and all stored
content included) and raises no error — the model insert is total; and
re-running `insertSearchResults` on the same batch is a no-op, so the insert
is idempotent on the uniqueness triple. -/
theorem insertSearchResults_idempotent :
    (∀ (table : List SearchResultRow) (row : SearchResultRow),
      (∃ x ∈ table, resultTriple x = resultTriple row) →
      insertResultRow table row = table) ∧
    (∀ (table rows : List SearchResultRow),
      insertSearchResults (insertSearchResults table rows) rows =
        insertSearchResults table rows) := by
  constructor
  · intro table row ⟨x, hx, hkey⟩
    unfold insertResultRow
    rw [if_pos (List.any_eq_true.mpr ⟨x, hx, decide_eq_true hkey⟩)]
  · intro table rows
    exact insertSearchResults_of_all_present rows (insertSearchResults table rows)
      (fun r hr => triples_present_after_insert rows table r hr)

/-- A stored Result row used to witness C9. -/
def c9Row : SearchResultRow :=
  ⟨"session-1", 7, "node-x", "https://github.com/acme/worker",
    some "readme text", none, none, some 0⟩

/-- The same triple re-offered with a different content payload. -/
def c9Dup : SearchResultRow :=
  ⟨"session-1", 7, "node-x", "https://github.com/acme/worker",
    some "other text", none, none, some 1⟩

/-- Witness for C9: re-inserting an existing (session, attempt, repo) triple
into a concrete one-row table is the identity; the existence hypothesis is
discharged concretely. -/
theorem insertSearchResults_idempotent_witness :
    (∃ x ∈ [c9Row], resultTriple x = resultTriple c9Dup) ∧
    insertResultRow [c9Row] c9Dup = [c9Row] := by
  have h : ∃ x ∈ [c9Row], resultTriple x = resultTriple c9Dup := by
    exact ⟨c9Row, List.mem_singleton_self c9Row, by decide⟩
  exact ⟨h, insertSearchResults_idempotent.1 [c9Row] c9Dup h⟩

/-! ### src/search.ts: executeSingleSearch as an event trace

`executeSingleSearch` (src/search.ts lines 62-233) is re-expressed as a pure
function of oracles for its external collaborators, additionally returning
the ordered list of store/judge calls it performs, so that persistence
ordering can be stated. -/

/-- The possible outcomes of the auxiliary README fetch (src/github.ts
`fetchReadme`): a 404 is caught and returned as `{content: null}` (no etag);
a success returns the body (together with the etag that was passed in — the
code computes `newEtag` from the response but returns the parameter); any
other non-2xx status makes `fetchGitHub` throw and the error is re-thrown.
(The function's `res.status === 304` branch is unreachable: `fetchGitHub`
already throws for every non-2xx status, 304 included, so a conditional-hit
also surfaces as `httpFailure` here.) -/
inductive ReadmeFetchOutcome
  | notFound
  | fresh (content : String)
  | httpFailure
deriving DecidableEq

/-- `fetchReadme`'s returned `{content, etag}` pair for the two non-throwing
outcomes; `httpFailure` never reaches this point (the caller aborts first)
and is given a dummy value. -/
def fetchReadme (outcome : ReadmeFetchOutcome) (etag : Option String) :
    Option String × Option String :=
  match outcome with
  | .notFound => (none, none)
  | .fresh c => (some c, etag)
  | .httpFailure => (none, none)

/-- A repository paired with its (possibly cache-resolved) README content,
as built by the `reposWithReadmes` step of `executeSingleSearch`. -/
structure EnrichedRepo where
  repo : GitHubRepository
  etag : Option String
  readme : Option String
deriving DecidableEq

/-- One entry of the digest sent to the judge (src/search.ts `judgePayload`),
restricted to the fields the claims inspect. -/
structure JudgeDigestEntry where
  full_name : String
  html_url : String
  description : Option String
  readme_excerpt : Option String
deriving DecidableEq

/-- The store/judge calls a round performs, in program order. -/
inductive DbEvent
  | nextResultGroup
  | createAttempt
  | getRepoEtags
  | insertRepos (repoIds : List String)
  | insertResults (rows : List SearchResultRow)
  | judgeCall (digest : List JudgeDigestEntry)
  | upsertJudgeReview
  | updateResultScores
deriving DecidableEq

/-- The external collaborators of one round: the provider's raw per-query
search results, the README fetch outcome and stored etag per repo full name,
the store's cached README content per node id (`db.getReadmeContent`), and
the judge outcome (`none` models `runJudge` throwing). -/
structure ExecOracles where
  raw : List (String × List GitHubRepository)
  readmeOutcome : String → ReadmeFetchOutcome
  storedEtag : String → Option String
  cachedReadme : String → Option String
  judge : Option JudgeResponse

/-- The errors a round can abort with. -/
inductive ExecError
  | readmeFetchFailed
  | judgeFailed
deriving DecidableEq

/-- The per-round summary `executeSingleSearch` returns on success. -/
structure SearchAttemptSummary where
  attemptId : Nat
  expandedQueries : List String
  judgeFindings : String
  recommendations : List String
  stats : ℚ × ℚ
  totalRepos : Nat
deriving DecidableEq

/-- The round's concatenated candidate list
(`searchResponses.flatMap((response) => response.items)`). -/
def concatRepos (o : ExecOracles) : List GitHubRepository :=
  assembleCandidates (runGitHubSearch o.raw)

/-- Does any candidate's README fetch throw?  `Promise.all` rejects as soon
as one of the parallel fetches throws, aborting the round. -/
def hasReadmeFailure (o : ExecOracles) : Bool :=
  (concatRepos o).any fun r => decide (o.readmeOutcome r.full_name = .httpFailure)

/-- The `reposWithReadmes` step for one repo: take the fetch result; when its
content is null, fall back to the store's cached content.  (The source guard
is `content === null && readme.etag !== null`; `readme.etag` is a string or
`undefined` and never the JS `null`, so the second conjunct is always true.
The cached fallback is applied only when truthy — `if (cachedReadme)` — so an
empty cached string is not used.) -/
def enrichRepo (o : ExecOracles) (r : GitHubRepository) : EnrichedRepo :=
  let fr := fetchReadme (o.readmeOutcome r.full_name) (o.storedEtag r.full_name)
  let fallback : Option String :=
    match o.cachedReadme r.node_id with
    | some c => if c = "" then none else some c
    | none => none
  ⟨r, fr.2, fr.1.or fallback⟩

/-- All candidates with their resolved README content. -/
def reposWithReadmes (o : ExecOracles) : List EnrichedRepo :=
  (concatRepos o).map (enrichRepo o)

/-- `filteredRepos`: candidates whose README content could not be obtained
are dropped (`entry.readme !== null`). -/
def filteredRepos (o : ExecOracles) : List EnrichedRepo :=
  (reposWithReadmes o).filter (fun e => e.readme.isSome)

/-- The rows handed to `db.insertSearchResults`: one per filtered candidate,
with null judge score and finding, and the position as batch id. -/
def resultRows (o : ExecOracles) (sessionId : String) (attemptId : Nat) :
    List SearchResultRow :=
  (filteredRepos o).enum.map fun ie =>
    ⟨sessionId, attemptId, ie.2.repo.node_id, ie.2.repo.html_url,
      ie.2.readme, none, none, some ie.1⟩

/-- The digest sent to the judge: the first 20 filtered candidates, each with
a ≤2000-character README excerpt. -/
def judgeDigest (o : ExecOracles) : List JudgeDigestEntry :=
  ((filteredRepos o).take 20).map fun e =>
    ⟨e.repo.full_name, e.repo.html_url, e.repo.description,
      e.readme.map (fun s => s.take 2000)⟩

/-- The store/judge calls made up to and including the judge invocation. -/
def preJudgeEvents (o : ExecOracles) (sessionId : String) (attemptId : Nat) :
    List DbEvent :=
  [.nextResultGroup, .createAttempt, .getRepoEtags,
    .insertRepos ((filteredRepos o).map (fun e => e.repo.node_id)),
    .insertResults (resultRows o sessionId attemptId),
    .judgeCall (judgeDigest o)]

/-- Embedding of `executeSingleSearch`: the result (or error) of the round,
together with the ordered trace of store/judge calls.  When a README fetch
throws, the round aborts after the etag lookup; when the judge throws, the
round aborts after all persistence calls; otherwise the judge review and the
scores are written and the summary is returned. -/
def executeSingleSearch (o : ExecOracles) (sessionId : String) (attemptId : Nat) :
    Except ExecError SearchAttemptSummary × List DbEvent :=
  if hasReadmeFailure o then
    (.error .readmeFetchFailed, [.nextResultGroup, .createAttempt, .getRepoEtags])
  else
    match o.judge with
    | none => (.error .judgeFailed, preJudgeEvents o sessionId attemptId)
    | some j =>
      (.ok ⟨attemptId, (runGitHubSearch o.raw).map (fun s => s.query),
          j.overall_findings, j.recommendations, computeStatistics j.per_repo,
          (concatRepos o).length⟩,
        preJudgeEvents o sessionId attemptId ++ [.upsertJudgeReview, .updateResultScores])

theorem resultRows_score_null (o : ExecOracles) (sid : String) (aid : Nat) :
    ∀ r ∈ resultRows o sid aid, r.judge_relevance_score = none ∧ r.judge_finding = none := by
  intro r hr
  rcases List.mem_map.mp hr with ⟨ie, _, rfl⟩
  exact ⟨rfl, rfl⟩

theorem trace_persist_spec (o : ExecOracles) (sid : String) (aid : Nat)
    (tail : List DbEvent) (htail : ∀ d, DbEvent.judgeCall d ∉ tail) :
    ∀ i digest,
      (preJudgeEvents o sid aid ++ tail).get? i = some (.judgeCall digest) →
      (∃ j, j < i ∧
        (preJudgeEvents o sid aid ++ tail).get? j = some .createAttempt) ∧
      (∃ j ids, j < i ∧
        (preJudgeEvents o sid aid ++ tail).get? j = some (.insertRepos ids)) ∧
      (∃ j rows, j < i ∧
        (preJudgeEvents o sid aid ++ tail).get? j = some (.insertResults rows) ∧
        ∀ r ∈ rows, r.judge_relevance_score = none ∧ r.judge_finding = none) := by
  intro i digest h
  simp only [preJudgeEvents, List.cons_append, List.nil_append] at h ⊢
  rcases i with _ | _ | _ | _ | _ | _ | i
  · simp at h
  · simp at h
  · simp at h
  · simp at h
  · simp at h
  · refine ⟨⟨1, by omega, by simp⟩,
      ⟨3, (filteredRepos o).map (fun e => e.repo.node_id), by omega, by simp⟩,
      ⟨4, resultRows o sid aid, by omega, by simp, resultRows_score_null o sid aid⟩⟩
  · simp only [List.get?_cons_succ] at h
    exact absurd (List.get?_mem h) (htail digest)

/-- C5. In every round, the attempt record, the candidate items, and their
Results with null judge score/finding are persisted strictly before the
judge is invoked (they occur at earlier trace positions than every
`judgeCall`); and in every round in which the judge is invoked and fails,
the round errors while those audit records are already in the trace. -/
theorem executeSingleSearch_persists_before_judge (o : ExecOracles)
    (sid : String) (aid : Nat) :
    (∀ i digest,
      (executeSingleSearch o sid aid).2.get? i = some (.judgeCall digest) →
      (∃ j, j < i ∧
        (executeSingleSearch o sid aid).2.get? j = some .createAttempt) ∧
      (∃ j ids, j < i ∧
        (executeSingleSearch o sid aid).2.get? j = some (.insertRepos ids)) ∧
      (∃ j rows, j < i ∧
        (executeSingleSearch o sid aid).2.get? j = some (.insertResults rows) ∧
        ∀ r ∈ rows, r.judge_relevance_score = none ∧ r.judge_finding = none)) ∧
    (o.judge = none →
      ∀ digest, DbEvent.judgeCall digest ∈ (executeSingleSearch o sid aid).2 →
      (executeSingleSearch o sid aid).1 = .error .judgeFailed ∧
      DbEvent.createAttempt ∈ (executeSingleSearch o sid aid).2 ∧
      ∃ rows, DbEvent.insertResults rows ∈ (executeSingleSearch o sid aid).2 ∧
        ∀ r ∈ rows, r.judge_relevance_score = none ∧ r.judge_finding = none) := by
  by_cases hf : hasReadmeFailure o
  · have ht : (executeSingleSearch o sid aid).2 =
        [.nextResultGroup, .createAttempt, .getRepoEtags] := by
      simp [executeSingleSearch, hf]
    constructor
    · intro i digest h
      rw [ht] at h
      rcases i with _ | _ | _ | i <;> simp at h
    · intro _ digest hmem
      rw [ht] at hmem
      simp at hmem
  · cases hj : o.judge with
    | none =>
      have ht : (executeSingleSearch o sid aid).2 = preJudgeEvents o sid aid ++ [] := by
        simp [executeSingleSearch, hf, hj]
      have hr : (executeSingleSearch o sid aid).1 = .error .judgeFailed := by
        simp [executeSingleSearch, hf, hj]
      constructor
      · intro i digest h
        rw [ht] at h ⊢
        exact trace_persist_spec o sid aid [] (by simp) i digest h
      · intro _ digest _
        refine ⟨hr, ?_, resultRows o sid aid, ?_, resultRows_score_null o sid aid⟩
        · rw [ht]; simp [preJudgeEvents]
        · rw [ht]; simp [preJudgeEvents]
    | some j =>
      have ht : (executeSingleSearch o sid aid).2 =
          preJudgeEvents o sid aid ++ [.upsertJudgeReview, .updateResultScores] := by
        simp [executeSingleSearch, hf, hj]
      constructor
      · intro i digest h
        rw [ht] at h ⊢
        exact trace_persist_spec o sid aid [.upsertJudgeReview, .updateResultScores]
          (by simp) i digest h
      · intro hnone
        exact absurd hnone (by simp)

/-- A repository whose README fetch succeeds, used to witness the round
trace theorems. -/
def wRepo : GitHubRepository :=
  ⟨"node-a", "acme/alpha", "https://github.com/acme/alpha", some "a worker"⟩

/-- A round oracle in which the single candidate's README fetch succeeds and
the judge call fails (throws). -/
def wOracle : ExecOracles where
  raw := [("expanded-query", [wRepo])]
  readmeOutcome := fun _ => .fresh "readme body"
  storedEtag := fun _ => none
  cachedReadme := fun _ => none
  judge := none

/-- Witness for C5: on the concrete failing-judge round, the `judgeCall`
trace position and the judge failure hypotheses are discharged concretely,
and the theorem is applied there. -/
theorem executeSingleSearch_persists_before_judge_witness :
    ((executeSingleSearch wOracle "sess" 1).2.get? 5 =
        some (.judgeCall (judgeDigest wOracle)) ∧
      wOracle.judge = none ∧
      DbEvent.judgeCall (judgeDigest wOracle) ∈ (executeSingleSearch wOracle "sess" 1).2) ∧
    ((∃ j, j < 5 ∧
        (executeSingleSearch wOracle "sess" 1).2.get? j = some .createAttempt) ∧
      (executeSingleSearch wOracle "sess" 1).1 = .error .judgeFailed) := by
  have h5 : (executeSingleSearch wOracle "sess" 1).2.get? 5 =
      some (.judgeCall (judgeDigest wOracle)) := by
    simp [executeSingleSearch, wOracle, hasReadmeFailure, concatRepos,
      assembleCandidates, runGitHubSearch, preJudgeEvents]
  have hmem : DbEvent.judgeCall (judgeDigest wOracle) ∈
      (executeSingleSearch wOracle "sess" 1).2 :=
    List.get?_mem h5
  refine ⟨⟨h5, rfl, hmem⟩, ?_, ?_⟩
  · exact ((executeSingleSearch_persists_before_judge wOracle "sess" 1).1 5
      (judgeDigest wOracle) h5).1
  · exact ((executeSingleSearch_persists_before_judge wOracle "sess" 1).2 rfl
      (judgeDigest wOracle) hmem).1

theorem mem_enumFrom_snd {β : Type} :
    ∀ (l : List β) (n : Nat) (p : Nat × β), p ∈ List.enumFrom n l → p.2 ∈ l := by
  intro l
  induction l with
  | nil => intro n p hp; simp [List.enumFrom] at hp
  | cons a rest ih =>
    intro n p hp
    simp only [List.enumFrom, List.mem_cons] at hp
    rcases hp with rfl | hp
    · exact List.mem_cons_self a rest
    · exact List.mem_cons_of_mem a (ih (n + 1) p hp)

theorem insertResults_rows_unique (o : ExecOracles) (sid : String) (aid : Nat)
    (rows : List SearchResultRow)
    (h : DbEvent.insertResults rows ∈ (executeSingleSearch o sid aid).2) :
    rows = resultRows o sid aid := by
  by_cases hf : hasReadmeFailure o
  · simp [executeSingleSearch, hf] at h
  · cases hj : o.judge with
    | none =>
      rw [show (executeSingleSearch o sid aid).2 = preJudgeEvents o sid aid ++ [] by
        simp [executeSingleSearch, hf, hj]] at h
      simpa [preJudgeEvents, eq_comm] using h
    | some j =>
      rw [show (executeSingleSearch o sid aid).2 =
          preJudgeEvents o sid aid ++ [.upsertJudgeReview, .updateResultScores] by
        simp [executeSingleSearch, hf, hj]] at h
      simpa [preJudgeEvents, eq_comm] using h

theorem judgeCall_digest_unique (o : ExecOracles) (sid : String) (aid : Nat)
    (digest : List JudgeDigestEntry)
    (h : DbEvent.judgeCall digest ∈ (executeSingleSearch o sid aid).2) :
    digest = judgeDigest o := by
  by_cases hf : hasReadmeFailure o
  · simp [executeSingleSearch, hf] at h
  · cases hj : o.judge with
    | none =>
      rw [show (executeSingleSearch o sid aid).2 = preJudgeEvents o sid aid ++ [] by
        simp [executeSingleSearch, hf, hj]] at h
      simpa [preJudgeEvents, eq_comm] using h
    | some j =>
      rw [show (executeSingleSearch o sid aid).2 =
          preJudgeEvents o sid aid ++ [.upsertJudgeReview, .updateResultScores] by
        simp [executeSingleSearch, hf, hj]] at h
      simpa [preJudgeEvents, eq_comm] using h

theorem filteredRepos_origin (o : ExecOracles) (e : EnrichedRepo)
    (he : e ∈ filteredRepos o) :
    e.readme.isSome ∧ ∃ orig ∈ concatRepos o, e = enrichRepo o orig := by
  rcases List.mem_filter.mp he with ⟨hmem, hsome⟩
  rcases List.mem_map.mp hmem with ⟨orig, horig, rfl⟩
  exact ⟨hsome, orig, horig, rfl⟩

theorem enrichRepo_readme_none (o : ExecOracles) (orig : GitHubRepository)
    (hnf : o.readmeOutcome orig.full_name = .notFound)
    (hnc : o.cachedReadme orig.node_id = none) :
    (enrichRepo o orig).readme = none := by
  simp [enrichRepo, fetchReadme, hnf, hnc]

/-- C7. If an item's README fetch returns "not found" and the store holds no
cached content for it (identifying items by the node id / full name pair),
then the item contributes no persisted Result row and no judge digest entry;
every persisted row and every digest entry of the round carries non-null
content; and the exclusion does not fail the round — when no fetch throws
and the judge succeeds, the round still returns a summary. -/
theorem readme_notFound_exclusion (o : ExecOracles) (sid : String) (aid : Nat)
    (repo : GitHubRepository)
    (hident : ∀ r' ∈ concatRepos o,
      (r'.node_id = repo.node_id ↔ r'.full_name = repo.full_name))
    (hnf : o.readmeOutcome repo.full_name = .notFound)
    (hnc : o.cachedReadme repo.node_id = none) :
    (∀ rows, DbEvent.insertResults rows ∈ (executeSingleSearch o sid aid).2 →
      (∀ r ∈ rows, r.readme_content ≠ none) ∧
      repo.node_id ∉ rows.map (fun r => r.repo_id)) ∧
    (∀ digest, DbEvent.judgeCall digest ∈ (executeSingleSearch o sid aid).2 →
      (∀ d ∈ digest, d.readme_excerpt ≠ none) ∧
      repo.full_name ∉ digest.map (fun d => d.full_name)) ∧
    ((∀ r' ∈ concatRepos o, o.readmeOutcome r'.full_name ≠ .httpFailure) →
      ∀ j, o.judge = some j →
      ∃ s, (executeSingleSearch o sid aid).1 = .ok s) := by
  have hexcl : ∀ e ∈ filteredRepos o,
      e.repo.node_id ≠ repo.node_id ∧ e.repo.full_name ≠ repo.full_name := by
    intro e he
    obtain ⟨hsome, orig, horig, rfl⟩ := filteredRepos_origin o e he
    have hid := hident orig horig
    constructor
    · intro hnode
      have hname : orig.full_name = repo.full_name := hid.mp hnode
      rw [enrichRepo_readme_none o orig (hname ▸ hnf) (hnode ▸ hnc)] at hsome
      simp at hsome
    · intro hname
      have hnode : orig.node_id = repo.node_id := hid.mpr hname
      rw [enrichRepo_readme_none o orig (hname ▸ hnf) (hnode ▸ hnc)] at hsome
      simp at hsome
  refine ⟨?_, ?_, ?_⟩
  · intro rows hrows
    rw [insertResults_rows_unique o sid aid rows hrows]
    constructor
    · intro r hr
      rcases List.mem_map.mp hr with ⟨ie, hie, rfl⟩
      have hmem : ie.2 ∈ filteredRepos o := mem_enumFrom_snd (filteredRepos o) 0 ie hie
      have hsome := (List.mem_filter.mp hmem).2
      intro hcon
      have hnone : ie.2.readme = none := hcon
      rw [hnone] at hsome
      simp at hsome
    · intro hmem
      rcases List.mem_map.mp hmem with ⟨r, hr, hid⟩
      rcases List.mem_map.mp hr with ⟨ie, hie, rfl⟩
      have hmem2 : ie.2 ∈ filteredRepos o := mem_enumFrom_snd (filteredRepos o) 0 ie hie
      exact (hexcl ie.2 hmem2).1 hid
  · intro digest hdig
    rw [judgeCall_digest_unique o sid aid digest hdig]
    constructor
    · intro d hd
      rcases List.mem_map.mp hd with ⟨e, he, rfl⟩
      have hmem : e ∈ filteredRepos o := List.mem_of_mem_take he
      have hsome := (List.mem_filter.mp hmem).2
      rcases Option.isSome_iff_exists.mp hsome with ⟨c, hc⟩
      simp [hc]
    · intro hmem
      rcases List.mem_map.mp hmem with ⟨d, hd, hname⟩
      rcases List.mem_map.mp hd with ⟨e, he, rfl⟩
      have hmem2 : e ∈ filteredRepos o := List.mem_of_mem_take he
      exact (hexcl e hmem2).2 hname
  · intro hnofail j hj
    have hff : hasReadmeFailure o = false := by
      rw [hasReadmeFailure, List.any_eq_false]
      intro r hr
      simpa using hnofail r hr
    exact ⟨⟨aid, (runGitHubSearch o.raw).map (fun s => s.query), j.overall_findings,
      j.recommendations, computeStatistics j.per_repo, (concatRepos o).length⟩,
      by simp [executeSingleSearch, hff, hj]⟩

/-- A repository whose README fetch 404s and has no cached content. -/
def w7Gone : GitHubRepository :=
  ⟨"node-gone", "acme/gone", "https://github.com/acme/gone", none⟩

/-- A round with two candidates — one decorated, one whose README is
unobtainable — and a succeeding judge. -/
def w7Oracle : ExecOracles where
  raw := [("expanded-query", [wRepo, w7Gone])]
  readmeOutcome := fun n => if n = "acme/gone" then .notFound else .fresh "readme body"
  storedEtag := fun _ => none
  cachedReadme := fun _ => none
  judge := some ⟨"findings", ["follow-up"], [⟨"acme/alpha", 1 / 2, "useful"⟩]⟩

/-- Witness for C7: the identification, not-found and no-cache hypotheses are
discharged on the concrete two-candidate round, and the applied theorem shows
the undecorated item is excluded from the persisted rows while the round
still succeeds. -/
theorem readme_notFound_exclusion_witness :
    ((∀ r' ∈ concatRepos w7Oracle,
        (r'.node_id = w7Gone.node_id ↔ r'.full_name = w7Gone.full_name)) ∧
      w7Oracle.readmeOutcome w7Gone.full_name = .notFound ∧
      w7Oracle.cachedReadme w7Gone.node_id = none) ∧
    ((∀ rows, DbEvent.insertResults rows ∈ (executeSingleSearch w7Oracle "sess" 1).2 →
        (∀ r ∈ rows, r.readme_content ≠ none) ∧
        w7Gone.node_id ∉ rows.map (fun r => r.repo_id)) ∧
      ((∀ r' ∈ concatRepos w7Oracle,
          w7Oracle.readmeOutcome r'.full_name ≠ .httpFailure) →
        ∀ j, w7Oracle.judge = some j →
        ∃ s, (executeSingleSearch w7Oracle "sess" 1).1 = .ok s)) := by
  have hident : ∀ r' ∈ concatRepos w7Oracle,
      (r'.node_id = w7Gone.node_id ↔ r'.full_name = w7Gone.full_name) := by decide
  have hnf : w7Oracle.readmeOutcome w7Gone.full_name = .notFound := by decide
  have hnc : w7Oracle.cachedReadme w7Gone.node_id = none := rfl
  have happ := readme_notFound_exclusion w7Oracle "sess" 1 w7Gone hident hnf hnc
  exact ⟨⟨hident, hnf, hnc⟩, happ.1, happ.2.2⟩

/-! ### src/judge.ts: runJudge and the strict response schema -/

/-- The ways `runJudge` fails: missing credential, non-2xx judge API status,
missing message content, and a body that does not parse/validate against
`JudgeResponseSchema` (zod throws — `JudgeSchemaError` in the spec's
taxonomy). -/
inductive JudgeError
  | missingApiKey
  | apiError (status : Nat)
  | emptyResponse
  | schemaError
deriving DecidableEq

/-- The oracle for the judge HTTP call: a non-ok status, an ok response with
no message content, an ok response whose content is not this JSON shape, or
an ok response parsed into the raw response shape (still to be validated). -/
inductive JudgeApiOutcome
  | httpError (status : Nat)
  | emptyContent
  | unparsable
  | content (raw : JudgeResponse)
deriving DecidableEq

/-- The checks of `JudgeResponseSchema` (src/judge.ts lines 8-20):
`overall_findings` at most 500 characters, 1-5 recommendations, non-empty
`per_repo` with each score in [0, 1] and each note at most 240 characters. -/
def judgeResponseValid (r : JudgeResponse) : Bool :=
  decide (r.overall_findings.length ≤ 500) &&
  decide (1 ≤ r.recommendations.length) &&
  decide (r.recommendations.length ≤ 5) &&
  !r.per_repo.isEmpty &&
  r.per_repo.all (fun p =>
    decide (0 ≤ p.score) && decide (p.score ≤ 1) && decide (p.note.length ≤ 240))

/-- The same checks as a proposition. -/
def judgeResponseBounds (r : JudgeResponse) : Prop :=
  r.overall_findings.length ≤ 500 ∧
  1 ≤ r.recommendations.length ∧ r.recommendations.length ≤ 5 ∧
  r.per_repo ≠ [] ∧
  ∀ p ∈ r.per_repo, 0 ≤ p.score ∧ p.score ≤ 1 ∧ p.note.length ≤ 240

/-- `JudgeResponseSchema.parse`: returns the value if it validates, throws
otherwise. -/
def parseJudgeResponse (raw : JudgeResponse) : Except JudgeError JudgeResponse :=
  if judgeResponseValid raw then .ok raw else .error .schemaError

/-- Embedding of `runJudge` (src/judge.ts lines 41-79): fail without an API
key; fail on a non-ok status; fail on missing content; otherwise parse and
validate the content.  No retry happens anywhere in this path. -/
def runJudge (apiKey : Option String) (resp : JudgeApiOutcome) :
    Except JudgeError JudgeResponse :=
  match apiKey with
  | none => .error .missingApiKey
  | some _ =>
    match resp with
    | .httpError s => .error (.apiError s)
    | .emptyContent => .error .emptyResponse
    | .unparsable => .error .schemaError
    | .content raw => parseJudgeResponse raw

theorem judgeResponseValid_iff (r : JudgeResponse) :
    judgeResponseValid r = true ↔ judgeResponseBounds r := by
  simp [judgeResponseValid, judgeResponseBounds, List.all_eq_true,
    List.isEmpty_iff, and_assoc]

/-- Is one round's trace free of a second judge invocation?  Used to state
that a failed judge call is not retried within the round. -/
def judgeCallCount (events : List DbEvent) : Nat :=
  events.countP fun e =>
    match e with
    | .judgeCall _ => true
    | _ => false

theorem judgeCallCount_preJudgeEvents (o : ExecOracles) (sid : String) (aid : Nat) :
    judgeCallCount (preJudgeEvents o sid aid) = 1 := by
  simp [judgeCallCount, preJudgeEvents, List.countP_cons]

/-- C6. Every value `runJudge` returns satisfies the schema bounds (narrative
≤ 500 characters, 1-5 recommendations, non-empty per-item list with scores in
[0, 1] and notes ≤ 240 characters) and is exactly the parsed response body;
every response that violates the bounds, and every response that cannot be
parsed into the shape at all, makes `runJudge` fail with an error; and a
round never invokes the judge more than once (no automatic retry). -/
theorem runJudge_schema_spec :
    (∀ (key : Option String) (resp : JudgeApiOutcome) (r : JudgeResponse),
      runJudge key resp = .ok r → judgeResponseBounds r ∧ resp = .content r) ∧
    (∀ (key : Option String) (raw : JudgeResponse), ¬ judgeResponseBounds raw →
      ∃ e, runJudge key (.content raw) = .error e) ∧
    (∀ (key : Option String) (resp : JudgeApiOutcome),
      (∀ raw, resp ≠ .content raw) → ∃ e, runJudge key resp = .error e) ∧
    (∀ (o : ExecOracles) (sid : String) (aid : Nat),
      judgeCallCount (executeSingleSearch o sid aid).2 ≤ 1) := by
  refine ⟨?_, ?_, ?_, ?_⟩
  · intro key resp r h
    cases key with
    | none => simp [runJudge] at h
    | some k =>
      cases resp with
      | httpError s => simp [runJudge] at h
      | emptyContent => simp [runJudge] at h
      | unparsable => simp [runJudge] at h
      | content raw =>
        simp only [runJudge, parseJudgeResponse] at h
        by_cases hv : judgeResponseValid raw
        · rw [if_pos hv] at h
          injection h with h2
          subst h2
          exact ⟨(judgeResponseValid_iff raw).mp hv, rfl⟩
        · rw [if_neg hv] at h
          cases h
  · intro key raw hbad
    cases key with
    | none => exact ⟨.missingApiKey, rfl⟩
    | some k =>
      refine ⟨.schemaError, ?_⟩
      simp only [runJudge, parseJudgeResponse]
      rw [if_neg]
      intro hv
      exact hbad ((judgeResponseValid_iff raw).mp hv)
  · intro key resp hnotc
    cases key with
    | none => exact ⟨.missingApiKey, rfl⟩
    | some k =>
      cases resp with
      | httpError s => exact ⟨.apiError s, rfl⟩
      | emptyContent => exact ⟨.emptyResponse, rfl⟩
      | unparsable => exact ⟨.schemaError, rfl⟩
      | content raw => exact absurd rfl (hnotc raw)
  · intro o sid aid
    by_cases hf : hasReadmeFailure o
    · rw [show (executeSingleSearch o sid aid).2 =
        [.nextResultGroup, .createAttempt, .getRepoEtags] by simp [executeSingleSearch, hf]]
      simp [judgeCallCount, List.countP_cons]
    · cases hj : o.judge with
      | none =>
        rw [show (executeSingleSearch o sid aid).2 = preJudgeEvents o sid aid ++ [] by
          simp [executeSingleSearch, hf, hj]]
        simp [judgeCallCount, preJudgeEvents, List.countP_cons]
      | some j =>
        rw [show (executeSingleSearch o sid aid).2 =
            preJudgeEvents o sid aid ++ [.upsertJudgeReview, .updateResultScores] by
          simp [executeSingleSearch, hf, hj]]
        simp [judgeCallCount, preJudgeEvents, List.countP_cons, List.countP_append]

/-- A judge response inside all schema bounds. -/
def c6Good : JudgeResponse :=
  ⟨"solid matches found", ["cloudflare workers kv cache"],
    [⟨"acme/alpha", 9 / 10, "excellent fit"⟩]⟩

/-- A judge response violating the schema (no recommendations). -/
def c6Bad : JudgeResponse :=
  ⟨"narrative", [], [⟨"acme/alpha", 1 / 2, "ok"⟩]⟩

/-- Witness for C6: a concrete in-bounds response is accepted (and the
theorem yields its bounds), and a concrete response with an empty
recommendation list is rejected with an error. -/
theorem runJudge_schema_spec_witness :
    (runJudge (some "key") (.content c6Good) = .ok c6Good ∧
      ¬ judgeResponseBounds c6Bad) ∧
    (judgeResponseBounds c6Good ∧
      ∃ e, runJudge (some "key") (.content c6Bad) = .error e) := by
  have hok : runJudge (some "key") (.content c6Good) = .ok c6Good := by
    simp only [runJudge, parseJudgeResponse]
    rw [if_pos]
    rw [judgeResponseValid_iff]
    refine ⟨by decide, by norm_num [c6Good], by norm_num [c6Good],
      by simp [c6Good], ?_⟩
    intro p hp
    simp only [c6Good, List.mem_singleton] at hp
    subst hp
    refine ⟨by norm_num, by norm_num, by decide⟩
  have hbad : ¬ judgeResponseBounds c6Bad := by
    intro h
    have := h.2.1
    simp [c6Bad] at this
  exact ⟨⟨hok, hbad⟩,
    (runJudge_schema_spec.1 (some "key") (.content c6Good) c6Good hok).1,
    runJudge_schema_spec.2.1 (some "key") c6Bad hbad⟩

/-! ### src/scaffolder.ts: the durable-object RateLimiter (token-bucket actor)

The actor's observable state is the in-memory token count (`this.tokens`),
the persisted storage value and the pending alarm time; `consume` and the
alarm handler are pure state transformers over it, with the wall clock
passed explicitly.  Requests to one actor are serialized, so sequential
composition models its execution. -/

namespace RateLimiter

/-- `static capacity = 10000`. -/
def capacity : Int := 10000

/-- `static milliseconds_for_updates = 5000` (both the refill increment and
the alarm interval factor). -/
def milliseconds_for_updates : Int := 5000

/-- `static milliseconds_per_request = 1`. -/
def milliseconds_per_request : Int := 1

/-- The durable object's state: in-memory token count (`undefined` before
the first touch), the persisted value under the `tokens` storage key, and
the scheduled alarm time (if any). -/
structure State where
  mem : Option Int
  stored : Option Int
  alarm : Option Int
deriving DecidableEq

/-- A fresh actor: nothing in memory, nothing persisted, no alarm. -/
def initialState : State := ⟨none, none, none⟩

/-- The actor's private initialize(): keep the in-memory count if already
loaded, otherwise restore the persisted value, otherwise start at full
capacity and persist it. -/
def loadTokens (s : State) : State :=
  match s.mem with
  | some _ => s
  | none =>
    match s.stored with
    | some v => { s with mem := some v }
    | none => { s with mem := some capacity, stored := some capacity }

/-- `nextAlarmTime()`: now + milliseconds_for_updates * milliseconds_per_request. -/
def nextAlarmTime (now : Int) : Int :=
  now + milliseconds_for_updates * milliseconds_per_request

/-- `checkAndSetAlarm()`: reuse a pending alarm, otherwise schedule one at
`nextAlarmTime` — returning the alarm time that is now pending. -/
def checkAndSetAlarm (s : State) (now : Int) : Int × State :=
  match s.alarm with
  | some t => (t, s)
  | none => (nextAlarmTime now, { s with alarm := some (nextAlarmTime now) })

/-- What `consume()` returns: the wait until the next admissible request
(0 on success) and the remaining token count. -/
structure ConsumeResult where
  millisecondsToNextRequest : Int
  remaining : Int
deriving DecidableEq

/-- `consume()`: lazily initialize, ensure an alarm is pending, then either
take a token (zero wait) or report the time remaining until the pending
alarm. -/
def consume (s : State) (now : Int) : ConsumeResult × State :=
  let s1 := loadTokens s
  let a := checkAndSetAlarm s1 now
  let t := a.2.mem.getD 0
  if 0 < t then
    let t2 := max 0 (t - 1)
    (⟨0, max 0 t2⟩, { a.2 with mem := some t2, stored := some t2 })
  else
    (⟨max 0 (a.1 - now), max 0 t⟩, a.2)

/-- `alarm()`: the runtime clears the due alarm before invoking the handler;
the handler initializes, adds the fixed increment capped at capacity when
below capacity, and re-schedules another alarm only while still below
capacity. -/
def alarmFire (s : State) (now : Int) : State :=
  let s0 : State := { s with alarm := none }
  let s1 := loadTokens s0
  let currentTokens := s1.mem.getD capacity
  let s2 :=
    if currentTokens < capacity then
      let t2 := min capacity (currentTokens + milliseconds_for_updates)
      { s1 with mem := some t2, stored := some t2 }
    else s1
  if s2.mem.getD capacity < capacity then
    { s2 with alarm := some (nextAlarmTime now) }
  else s2

/-- `n` back-to-back `consume` calls at one instant. -/
def consumeIter (now : Int) : Nat → State → State
  | 0, s => s
  | n + 1, s => consumeIter now n (consume s now).2

theorem consume_initial (t0 : Int) :
    consume initialState t0 =
      (⟨0, capacity - 1⟩,
        ⟨some (capacity - 1), some (capacity - 1), some (t0 + 5000)⟩) := by
  show consume ⟨none, none, none⟩ t0 = _
  simp only [consume, loadTokens, checkAndSetAlarm, nextAlarmTime, capacity,
    milliseconds_for_updates, milliseconds_per_request]
  norm_num

theorem consume_active (m a now : Int) (hm : 0 < m) :
    consume ⟨some m, some m, some a⟩ now =
      (⟨0, m - 1⟩, ⟨some (m - 1), some (m - 1), some a⟩) := by
  simp only [consume, loadTokens, checkAndSetAlarm, Option.getD_some]
  rw [if_pos hm]
  rw [max_eq_right (by omega : (0 : Int) ≤ m - 1)]
  rw [max_eq_right (by omega : (0 : Int) ≤ m - 1)]

theorem consume_empty (a now : Int) :
    consume ⟨some 0, some 0, some a⟩ now = (⟨max 0 (a - now), 0⟩, ⟨some 0, some 0, some a⟩) := by
  simp [consume, loadTokens, checkAndSetAlarm]

theorem consumeIter_active (now : Int) :
    ∀ (k : Nat) (m a : Int), (k : Int) ≤ m →
      consumeIter now k ⟨some m, some m, some a⟩ =
        ⟨some (m - k), some (m - k), some a⟩ := by
  intro k
  induction k with
  | zero => intro m a _; simp [consumeIter]
  | succ k ih =>
    intro m a hk
    have hm : 0 < m := by
      have : ((k : Int) + 1) ≤ m := by push_cast at hk ⊢; omega
      omega
    show consumeIter now k (consume ⟨some m, some m, some a⟩ now).2 = _
    rw [consume_active m a now hm]
    rw [ih (m - 1) a (by push_cast at hk ⊢; omega)]
    have harith : m - 1 - (k : Int) = m - ((k + 1 : Nat) : Int) := by
      push_cast
      ring
    rw [harith]

theorem consumeIter_initial (t0 : Int) (k : Nat) (hk1 : 1 ≤ k) (hk : k ≤ 10000) :
    consumeIter t0 k initialState =
      ⟨some (10000 - (k : Int)), some (10000 - (k : Int)), some (t0 + 5000)⟩ := by
  obtain ⟨k', rfl⟩ : ∃ k', k = k' + 1 := ⟨k - 1, by omega⟩
  show consumeIter t0 k' (consume initialState t0).2 = _
  rw [consume_initial t0]
  rw [show capacity - 1 = (9999 : Int) from by norm_num [capacity]]
  rw [consumeIter_active t0 k' 9999 (t0 + 5000) (by push_cast at hk ⊢; omega)]
  have harith : (9999 : Int) - (k' : Int) = 10000 - ((k' + 1 : Nat) : Int) := by
    push_cast
    ring
  rw [harith]

theorem consumeIter_full (t0 : Int) :
    consumeIter t0 10000 initialState = ⟨some 0, some 0, some (t0 + 5000)⟩ := by
  rw [consumeIter_initial t0 10000 (by norm_num) (by norm_num)]
  norm_num

theorem alarmFire_reschedules_only_below (s : State) (now v : Int)
    (halarm : (alarmFire s now).alarm = some v) :
    ∃ m2, (alarmFire s now).mem = some m2 ∧ m2 < capacity := by
  rcases s with ⟨mem, stored, alarm⟩
  cases mem with
  | some m =>
    by_cases hm : m < capacity
    · by_cases h2 : min capacity (m + milliseconds_for_updates) < capacity
      · simp only [alarmFire, loadTokens, Option.getD_some, if_pos hm, if_pos h2] at halarm ⊢
        exact ⟨_, rfl, h2⟩
      · simp only [alarmFire, loadTokens, Option.getD_some, if_pos hm, if_neg h2] at halarm
        exact Option.noConfusion halarm
    · simp only [alarmFire, loadTokens, Option.getD_some, if_neg hm] at halarm
      exact Option.noConfusion halarm
  | none =>
    cases stored with
    | some v0 =>
      by_cases hm : v0 < capacity
      · by_cases h2 : min capacity (v0 + milliseconds_for_updates) < capacity
        · simp only [alarmFire, loadTokens, Option.getD_some, if_pos hm, if_pos h2] at halarm ⊢
          exact ⟨_, rfl, h2⟩
        · simp only [alarmFire, loadTokens, Option.getD_some, if_pos hm, if_neg h2] at halarm
          exact Option.noConfusion halarm
      · simp only [alarmFire, loadTokens, Option.getD_some, if_neg hm] at halarm
        exact Option.noConfusion halarm
    | none =>
      simp only [alarmFire, loadTokens, Option.getD_some,
        if_neg (lt_irrefl capacity)] at halarm
      exact Option.noConfusion halarm

theorem alarmFire_increment_bounded (s : State) (now m : Int)
    (hmem : s.mem = some m) (hcap : m ≤ capacity) :
    ∃ m2, (alarmFire s now).mem = some m2 ∧ m2 ≤ capacity ∧ m ≤ m2 := by
  rcases s with ⟨mem, stored, alarm⟩
  cases hmem
  by_cases hm : m < capacity
  · refine ⟨min capacity (m + milliseconds_for_updates), ?_, min_le_left _ _,
      le_min (by omega) (by norm_num [milliseconds_for_updates])⟩
    by_cases h2 : min capacity (m + milliseconds_for_updates) < capacity
    · simp only [alarmFire, loadTokens, Option.getD_some, if_pos hm, if_pos h2]
    · simp only [alarmFire, loadTokens, Option.getD_some, if_pos hm, if_neg h2]
  · refine ⟨m, ?_, hcap, le_refl m⟩
    simp only [alarmFire, loadTokens, Option.getD_some, if_neg hm]

/-- C10. The durable token-bucket actor starting with no persisted state:
the first request lazily initializes the count to full capacity (10000) and
persists it; each of the first 10000 back-to-back consume calls succeeds with
zero wait; the first consume ensures an alarm 5000 ms out, and the 10001st
consume — performed at any time `t1` before that alarm — returns the positive
remaining wait `t0 + 5000 - t1`; the alarm adds its fixed 5000-token
increment (never exceeding capacity, as the general conjuncts state), after
which a further consume succeeds; and a fired alarm re-schedules itself only
while the count is below capacity. -/
theorem tokenBucket_spec (t0 t1 : Int) (k : Nat) (hk : k < 10000)
    (h1 : t1 < t0 + 5000) :
    loadTokens initialState = ⟨some capacity, some capacity, none⟩ ∧
    (consume (consumeIter t0 k initialState) t0).1.millisecondsToNextRequest = 0 ∧
    (consumeIter t0 10000 initialState).alarm = some (t0 + 5000) ∧
    (consume (consumeIter t0 10000 initialState) t1).1.millisecondsToNextRequest =
      t0 + 5000 - t1 ∧
    0 < (consume (consumeIter t0 10000 initialState) t1).1.millisecondsToNextRequest ∧
    (alarmFire (consumeIter t0 10000 initialState) (t0 + 5000)).mem = some 5000 ∧
    (consume (alarmFire (consumeIter t0 10000 initialState) (t0 + 5000))
      (t0 + 5000)).1.millisecondsToNextRequest = 0 ∧
    (∀ (s : State) (now v : Int), (alarmFire s now).alarm = some v →
      ∃ m2, (alarmFire s now).mem = some m2 ∧ m2 < capacity) ∧
    (∀ (s : State) (now m : Int), s.mem = some m → m ≤ capacity →
      ∃ m2, (alarmFire s now).mem = some m2 ∧ m2 ≤ capacity ∧ m ≤ m2) := by
  have hwait : (consume (consumeIter t0 10000 initialState) t1).1.millisecondsToNextRequest =
      t0 + 5000 - t1 := by
    rw [consumeIter_full t0, consume_empty]
    exact max_eq_right (by omega)
  have hfire : alarmFire ⟨some 0, some 0, some (t0 + 5000)⟩ (t0 + 5000) =
      ⟨some 5000, some 5000, some (t0 + 5000 + 5000)⟩ := by
    have hm : (0 : Int) < capacity := by norm_num [capacity]
    have ht2 : min capacity ((0 : Int) + milliseconds_for_updates) = 5000 := by
      norm_num [capacity, milliseconds_for_updates]
    have h2 : min capacity ((0 : Int) + milliseconds_for_updates) < capacity := by
      rw [ht2]; norm_num [capacity]
    simp only [alarmFire, loadTokens, Option.getD_some, if_pos hm, if_pos h2]
    rw [ht2]
    norm_num [nextAlarmTime, milliseconds_for_updates, milliseconds_per_request]
  refine ⟨rfl, ?_, ?_, hwait, ?_, ?_, ?_,
    fun s now v h => alarmFire_reschedules_only_below s now v h,
    fun s now m h1 h2 => alarmFire_increment_bounded s now m h1 h2⟩
  · cases k with
    | zero =>
      rw [show consumeIter t0 0 initialState = initialState from rfl, consume_initial]
    | succ k =>
      rw [consumeIter_initial t0 (k + 1) (by omega) (by omega)]
      rw [consume_active (10000 - ((k + 1 : Nat) : Int)) (t0 + 5000) t0
        (by push_cast; omega)]
  · rw [consumeIter_full t0]
  · rw [hwait]; omega
  · rw [consumeIter_full t0, hfire]
  · rw [consumeIter_full t0, hfire]
    rw [consume_active 5000 (t0 + 5000 + 5000) (t0 + 5000) (by norm_num)]

/-- Witness for C10: the scenario at `t0 = 0`, with the 10000th consume
(`k = 9999`) and the over-capacity consume at `t1 = 4999`, discharging both
time-bound hypotheses concretely. -/
theorem tokenBucket_spec_witness :
    ((9999 : Nat) < 10000 ∧ (4999 : Int) < 0 + 5000) ∧
    ((consume (consumeIter 0 9999 initialState) 0).1.millisecondsToNextRequest = 0 ∧
      (consume (consumeIter 0 10000 initialState) 4999).1.millisecondsToNextRequest =
        0 + 5000 - 4999 ∧
      (alarmFire (consumeIter 0 10000 initialState) (0 + 5000)).mem = some 5000) := by
  have happ := tokenBucket_spec 0 4999 9999 (by norm_num) (by norm_num)
  exact ⟨⟨by norm_num, by norm_num⟩, happ.2.1, happ.2.2.2.1, happ.2.2.2.2.2.1⟩

end RateLimiter

end GhNlSearch
